import Mathlib

/-!
Verification of the AWS CodePipeline monitor (`pipeline_monitor.py`) against
its specification.  Python text is modelled as `List Char` (one entry per
code point), timestamps as whole seconds since the Unix epoch (`ℤ`, the
resolution at which the spec states every duration property), optional
values as `Option`, and each `try`-wrapped API call as an `Except String`
value whose `error` case stands for the exception caught by the
corresponding handler.
-/

deriving instance DecidableEq for Except

namespace AWSPipelineMonitor

/-- Python text, one entry per code point. -/
abbrev Chars := List Char

/-- Python `str.lower` (the source only ever lowercases ASCII names). -/
def toLowerChars (s : Chars) : Chars := s.map Char.toLower

/-- Python substring containment, `needle in hay`. -/
def containsSub (needle : Chars) : Chars → Bool
  | [] => needle.isEmpty
  | c :: rest => needle.isPrefixOf (c :: rest) || containsSub needle rest

/-- Decimal rendering of an integer, as a Python f-string interpolates it. -/
def intToChars (i : ℤ) : Chars :=
  if i < 0 then '-' :: Nat.toDigits 10 i.natAbs else Nat.toDigits 10 i.natAbs

/-- Shallow embedding of `PipelineMonitor.format_duration`.  `now` models
`datetime.now()`, used when `end_time` is `None` (a `datetime` is always
truthy in Python, so `if not end_time` tests exactly for `None`).  Python
floor division and modulus agree with `Int` division and modulus because
every divisor here is positive. -/
def format_duration (now start_time : ℤ) (end_time : Option ℤ) : Chars :=
  let e := end_time.getD now
  let total_seconds := e - start_time
  let hours := total_seconds / 3600
  let minutes := (total_seconds % 3600) / 60
  let seconds := total_seconds % 60
  if hours > 0 then intToChars hours ++ 'h' :: ' ' :: intToChars minutes ++ ['m']
  else if minutes > 0 then intToChars minutes ++ 'm' :: ' ' :: intToChars seconds ++ ['s']
  else intToChars seconds ++ ['s']

/-- Number of seconds denoted by the components that `format_duration`
actually renders: the branch structure mirrors `format_duration`, and the
hours branch drops the seconds component. -/
def displayedSeconds (t : ℤ) : ℤ :=
  let hours := t / 3600
  let minutes := (t % 3600) / 60
  let seconds := t % 60
  if hours > 0 then hours * 3600 + minutes * 60
  else if minutes > 0 then minutes * 60 + seconds
  else seconds

/-- Year, month and day of a count of days since 1970-01-01 in the proleptic
Gregorian calendar, the arithmetic form of the civil-date conversion that
`datetime.strftime` performs. -/
def civilFromDays (z0 : ℤ) : ℤ × ℤ × ℤ :=
  let z := z0 + 719468
  let era := z / 146097
  let doe := z % 146097
  let yoe := (doe - doe / 1460 + doe / 36524 - doe / 146096) / 365
  let y := yoe + era * 400
  let doy := doe - (365 * yoe + yoe / 4 - yoe / 100)
  let mp := (5 * doy + 2) / 153
  let d := doy - (153 * mp + 2) / 5 + 1
  let m := mp + (if mp < 10 then 3 else (-9))
  (y + (if m ≤ 2 then 1 else 0), m, d)

/-- Zero-padding to two digits, as the `%d`, `%m`, `%H` and `%M` directives
of `strftime` do. -/
def pad2 (n : ℤ) : Chars := if n < 10 then '0' :: intToChars n else intToChars n

/-- Shallow embedding of `PipelineMonitor.format_date`, the
`strftime("%d/%m/%Y %H:%M")` rendering of a whole-second timestamp. -/
def format_date (t : ℤ) : Chars :=
  let days := t / 86400
  let secs := t % 86400
  let c := civilFromDays days
  pad2 c.2.2 ++ '/' :: pad2 c.2.1 ++ '/' :: intToChars c.1 ++
    ' ' :: pad2 (secs / 3600) ++ ':' :: pad2 ((secs % 3600) / 60)

/-- The literal `"Unknown"` placeholder. -/
def unknownChars : Chars := "Unknown".toList

/-- A value found in a timestamp field of an execution summary: either a
`datetime` (modelled as a whole-second instant) or some other value, for
which `isinstance(x, datetime)` is false and `x.strftime` raises. -/
inductive PyVal where
  | dt (t : ℤ)
  | nonDt
deriving DecidableEq, Repr

/-- One entry of `pipelineExecutionSummaries`.  Each field is `Option`al;
`monitor_pipelines` reads every one of them with a `.get` default. -/
structure ExecSummary where
  status : Option Chars
  pipelineExecutionId : Option Chars
  startTime : Option PyVal
  lastUpdateTime : Option PyVal
deriving DecidableEq, Repr

/-- One entry of `artifactRevisions` (missing keys read as the `.get`
defaults, the empty string). -/
structure Revision where
  name : Chars
  revisionSummary : Chars
deriving DecidableEq, Repr

/-- The `pipelineExecution` object of a `get_pipeline_execution` response. -/
structure ExecDetail where
  artifactRevisions : List Revision
deriving DecidableEq, Repr

/-- One action of a pipeline stage: its configuration mapping. -/
structure Action where
  configuration : List (Chars × Chars)
deriving DecidableEq, Repr

/-- One stage of a pipeline definition. -/
structure Stage where
  name : Chars
  actions : List Action
deriving DecidableEq, Repr

/-- The `pipeline` object of a `get_pipeline` response. -/
structure Pipeline where
  stages : List Stage
deriving DecidableEq, Repr

/-- Shallow embedding of `PipelineMonitor.get_latest_execution`.  The
argument is the wrapped `list_pipeline_executions` call, `error` being the
caught exception and `ok` the `pipelineExecutionSummaries` list; the source
returns `executions[0] if executions else None`. -/
def get_latest_execution (resp : Except String (List ExecSummary)) : Option ExecSummary :=
  match resp with
  | .error _ => none
  | .ok executions => executions.head?

/-- The marker tested by `get_commit_message`. -/
def commitMarker : Chars := "CommitMessage\":\"".toList

/-- The separator passed to `str.split` by `get_commit_message`. -/
def commitSep : Chars := "CommitMessage\":".toList

/-- Python `str.split(sep)` for a non-empty separator: the text is split at
every non-overlapping occurrence of `sep`, scanning left to right.  `fuel`
merely bounds the recursion; `splitOnChars` supplies enough of it. -/
def splitOnFuel (sep : Chars) : Nat → Chars → List Chars
  | _, [] => [[]]
  | 0, s => [s]
  | fuel + 1, c :: rest =>
    if sep ≠ [] ∧ sep.isPrefixOf (c :: rest) then
      [] :: splitOnFuel sep fuel (List.drop sep.length (c :: rest))
    else
      match splitOnFuel sep fuel rest with
      | [] => [[c]]
      | h :: t => (c :: h) :: t

/-- Python `str.split(sep)`. -/
def splitOnChars (sep s : Chars) : List Chars := splitOnFuel sep s.length s

/-- The commit-message extraction of `get_commit_message`: when the marker
is present, `revision_summary.split('CommitMessage":')[1][1:-2]` (the slice
drops one leading and two trailing characters), otherwise the raw summary
text unchanged. -/
def extractCommitMessage (summary : Chars) : Chars :=
  if containsSub commitMarker summary then
    (((splitOnChars commitSep summary).getD 1 []).drop 1).dropLast.dropLast
  else summary

/-- The revision filter of `get_commit_message`: keep the first revision
whose lowercased name does not contain `"helm"`. -/
def nonHelm (r : Revision) : Bool := ! containsSub "helm".toList (toLowerChars r.name)

/-- Shallow embedding of `PipelineMonitor.get_commit_message`.  The argument
is the wrapped `get_pipeline_execution` call; `ok none` is an absent or
empty `pipelineExecution` object, rejected by the `if not execution`
test. -/
def get_commit_message (resp : Except String (Option ExecDetail)) : Chars :=
  match resp with
  | .error _ => unknownChars
  | .ok none => unknownChars
  | .ok (some execution) =>
    match execution.artifactRevisions.find? nonHelm with
    | some r => extractCommitMessage r.revisionSummary
    | none => unknownChars

/-- Python `dict.get` on a string-keyed configuration mapping. -/
def dictGet (k : Chars) (d : List (Chars × Chars)) : Option Chars :=
  (d.find? (fun kv => kv.1 == k)).map (fun kv => kv.2)

/-- The branch one action contributes: its `BranchName` configuration value
when present and non-empty (`if branch` is Python truthiness, so the empty
string does not qualify). -/
def branchOf (a : Action) : Option Chars :=
  match dictGet "BranchName".toList a.configuration with
  | some b => if b.isEmpty then none else some b
  | none => none

/-- The stage scan of `get_pipeline_branch`: stages in order; inside a stage
whose lowercased name is `"source"`, actions in order, returning the first
non-empty `BranchName`; when a source-named stage has no qualifying action
the scan moves on to the remaining stages. -/
def branchOfStages : List Stage → Option Chars
  | [] => none
  | st :: rest =>
    if toLowerChars st.name == "source".toList then
      match st.actions.findSome? branchOf with
      | some b => some b
      | none => branchOfStages rest
    else branchOfStages rest

/-- Shallow embedding of `PipelineMonitor.get_pipeline_branch`.  The
argument is the wrapped `get_pipeline` call; `ok none` is an absent
`pipeline` object, which the `.get` default turns into an empty one. -/
def get_pipeline_branch (resp : Except String (Option Pipeline)) : Chars :=
  match resp with
  | .error _ => unknownChars
  | .ok opt =>
    match branchOfStages (opt.getD ⟨[]⟩).stages with
    | some b => b
    | none => unknownChars

/-- The actions of the source-named stages, in scan order; the first of
these with a non-empty `BranchName` is what `get_pipeline_branch` finds. -/
def sourceActions (p : Pipeline) : List Action :=
  (p.stages.filter (fun st => toLowerChars st.name == "source".toList)).flatMap Stage.actions

/-- Shallow embedding of `PipelineMonitor.list_all_pipelines`.  The first
argument is the wrapped `list_pipelines` call carrying the listed pipeline
names; the second is `self.name_filters`, already lowercased by
`__init__`. -/
def list_all_pipelines (resp : Except String (List Chars)) (name_filters : List Chars) : List Chars :=
  match resp with
  | .error _ => []
  | .ok all_pipelines =>
    all_pipelines.filter (fun p => name_filters.any (fun f => containsSub f (toLowerChars p)))

/-- The process environment seen by `__init__` (`os.getenv` yields `none`
for an unset variable). -/
structure Env where
  accessKeyId : Option String
  secretAccessKey : Option String
  sessionToken : Option String
  region : Option String
deriving DecidableEq

/-- Python truthiness of an `Optional[str]`: `None` and the empty string are
falsy, which is what `all([...])` tests in `__init__`. -/
def truthy : Option String → Bool
  | none => false
  | some s => ! (s == "")

/-- The boto3 client value constructed at the end of `__init__`. -/
structure CodePipelineClient where
  aws_access_key_id : Option String
  aws_secret_access_key : Option String
  aws_session_token : Option String
  region_name : String
deriving DecidableEq

/-- The constructed monitor: the stored credentials, region, lowercased
filters, and the API client. -/
structure Monitor where
  aws_access_key_id : Option String
  aws_secret_access_key : Option String
  aws_session_token : Option String
  aws_region : String
  name_filters : List Chars
  codepipeline : CodePipelineClient
deriving DecidableEq

/-- Shallow embedding of `PipelineMonitor.__init__`: read the environment,
lowercase the filters, raise `ValueError` when any of the three credentials
is missing or empty, and only then construct the API client — the `error`
result therefore carries no client, and no network activity has taken
place. -/
def init (env : Env) (name_filters : List Chars) : Except String Monitor :=
  let ak := env.accessKeyId
  let sk := env.secretAccessKey
  let tok := env.sessionToken
  let region := env.region.getD "eu-west-1"
  let filters := name_filters.map toLowerChars
  if truthy ak && truthy sk && truthy tok then
    .ok ⟨ak, sk, tok, region, filters, ⟨ak, sk, tok, region⟩⟩
  else
    .error "AWS credentials not found in environment variables"

/-- A credential value that `__init__` accepts: present and non-empty. -/
def presentNonEmpty (o : Option String) : Prop := o ≠ none ∧ o ≠ some ""

/-- One row of the rendered table, in column order. -/
structure Row where
  pipeline : Chars
  branch : Chars
  status : Chars
  lastRun : Chars
  duration : Chars
  commitMessage : Chars
deriving DecidableEq, Repr

/-- The commit-message truncation of `monitor_pipelines`: messages over 50
characters are cut to their first 50 characters plus `"..."`. -/
def truncateMessage (m : Chars) : Chars :=
  if m.length > 50 then m.take 50 ++ "...".toList else m

/-- One iteration body of the `monitor_pipelines` loop once the latest
execution is in hand: `.get` defaults for missing fields (`datetime.now()`
for the two timestamps), `format_date` on the start value — which raises,
hence `error`, when that value is not a `datetime` — the `isinstance` guard
around `format_duration`, and commit-message truncation. -/
def buildRow (now : ℤ) (pipeline branch commit_message : Chars)
    (execution : ExecSummary) : Except String Row :=
  let status := execution.status.getD "UNKNOWN".toList
  let start_time := execution.startTime.getD (.dt now)
  let last_update_time := execution.lastUpdateTime.getD (.dt now)
  match start_time with
  | .nonDt => .error "AttributeError"
  | .dt ts =>
    let last_run := format_date ts
    let duration :=
      match last_update_time with
      | .dt lu => format_duration now ts (some lu)
      | .nonDt => unknownChars
    .ok ⟨pipeline, branch, status, last_run, duration, truncateMessage commit_message⟩

/-- One matched pipeline together with the results of its three detail
calls (each wrapped in its own `try` block in the source). -/
structure PipelineInfo where
  name : Chars
  execResp : Except String (List ExecSummary)
  defResp : Except String (Option Pipeline)
  detailResp : Except String (Option ExecDetail)
deriving DecidableEq

/-- The `monitor_pipelines` loop over the matched pipelines: a pipeline
whose latest execution is absent is skipped (`continue`); otherwise the row
built from its detail fetches is appended.  An exception in the loop body
aborts the whole loop, as `monitor_pipelines` installs no handler of its
own. -/
def buildTable (now : ℤ) : List PipelineInfo → Except String (List Row)
  | [] => .ok []
  | p :: rest =>
    match get_latest_execution p.execResp with
    | none => buildTable now rest
    | some execution =>
      match buildRow now p.name (get_pipeline_branch p.defResp)
          (get_commit_message p.detailResp) execution with
      | .error e => .error e
      | .ok row =>
        match buildTable now rest with
        | .error e => .error e
        | .ok rows => .ok (row :: rows)

/-- The row order of `table_data.sort(key=lambda x: x[0])`: ascending by
pipeline name, names compared lexicographically by code point as Python
compares strings. -/
def rowLE (a b : Row) : Prop := a.pipeline ≤ b.pipeline

instance : DecidableRel rowLE :=
  fun a b => inferInstanceAs (Decidable (a.pipeline ≤ b.pipeline))

instance : IsTotal Row rowLE := ⟨fun a b => le_total a.pipeline b.pipeline⟩

instance : IsTrans Row rowLE := ⟨fun _ _ _ hab hbc => le_trans hab hbc⟩

/-- Strict version of the row order, used to show a sorted table with
pairwise-distinct pipeline names is unique. -/
def rowLT (a b : Row) : Prop := a.pipeline < b.pipeline

instance : IsAntisymm Row rowLT :=
  ⟨fun _ _ h1 h2 => absurd (lt_trans h1 h2) (lt_irrefl _)⟩

/-- The sort step of `monitor_pipelines`; like the Python list sort this is
a stable ascending sort. -/
def sortRows (rows : List Row) : List Row := List.insertionSort rowLE rows

/-- The table assembly of `monitor_pipelines`: one row per matched pipeline
that has a latest execution, sorted by pipeline name. -/
def monitorTable (now : ℤ) (ps : List PipelineInfo) : Except String (List Row) :=
  (buildTable now ps).map sortRows

/-- Whether the loop keeps a pipeline: its latest execution is present. -/
def keepPipeline (p : PipelineInfo) : Bool := (get_latest_execution p.execResp).isSome

/-- The row a kept pipeline contributes (with an irrelevant default for the
cases `buildTable` never reaches on an `ok` run). -/
def rowOf (now : ℤ) (p : PipelineInfo) : Row :=
  match get_latest_execution p.execResp with
  | none => ⟨p.name, [], [], [], [], []⟩
  | some execution =>
    match buildRow now p.name (get_pipeline_branch p.defResp)
        (get_commit_message p.detailResp) execution with
    | .error _ => ⟨p.name, [], [], [], [], []⟩
    | .ok row => row

instance (o : Option String) : Decidable (presentNonEmpty o) :=
  inferInstanceAs (Decidable (o ≠ none ∧ o ≠ some ""))

/-- Concrete pipeline definition used by witnesses: one source stage whose
single action tracks branch `main`. -/
def wSource : Pipeline := ⟨[⟨"Source".toList, [⟨[("BranchName".toList, "main".toList)]⟩]⟩]⟩

/-- Concrete execution detail used by witnesses: a helm revision followed by
a source revision with a structured commit-message summary. -/
def wDetail : ExecDetail :=
  ⟨[⟨"helm-pkg".toList, "zzz".toList⟩,
    ⟨"SourceArtifact".toList, "\x7b\"CommitMessage\":\"fix bug\"\x7d".toList⟩]⟩

/-- Concrete execution summary used by witnesses. -/
def wSummary : ExecSummary :=
  ⟨some "Succeeded".toList, some "id-1".toList, some (.dt 0), some (.dt 125)⟩

/-- A matched pipeline with a latest execution. -/
def wPipelineB : PipelineInfo :=
  ⟨"b-pipe".toList, .ok [wSummary], .ok (some wSource), .ok (some wDetail)⟩

/-- A matched pipeline whose `list_pipeline_executions` call failed, so its
latest execution is absent. -/
def wPipelineA : PipelineInfo := ⟨"a-pipe".toList, .error "boom", .ok none, .ok none⟩

/-- The witness fetch list. -/
def wPipelines : List PipelineInfo := [wPipelineB, wPipelineA]

/-- The table the witness fetch list renders. -/
def wRows : List Row := (monitorTable 0 wPipelines).toOption.getD []

/-- An execution summary lacking `lastUpdateTime` whose present `startTime`
is not a `datetime`. -/
def badSummary : ExecSummary :=
  ⟨some "Succeeded".toList, some "id-1".toList, some PyVal.nonDt, none⟩

/-- An execution summary lacking `startTime`, with a `datetime`
`lastUpdateTime`. -/
def missingStartSummary : ExecSummary :=
  ⟨none, some "id-2".toList, none, some (.dt 100)⟩

/-- An environment carrying all three credentials. -/
def wEnvOk : Env := ⟨some "AKIA", some "SECRET", some "TOKEN", none⟩

/-- An environment whose session token is set but empty. -/
def wEnvBad : Env := ⟨some "AKIA", some "SECRET", some "", none⟩

theorem buildRow_pipeline {now : ℤ} {n b c : Chars} {ex : ExecSummary} {r : Row}
    (h : buildRow now n b c ex = .ok r) : r.pipeline = n := by
  simp only [buildRow] at h
  split at h
  · exact Except.noConfusion h
  · injection h with h'
    subst h'
    rfl

theorem rowOf_pipeline (now : ℤ) (p : PipelineInfo) : (rowOf now p).pipeline = p.name := by
  unfold rowOf
  split
  · rfl
  · split
    · rfl
    · rename_i row heq
      exact buildRow_pipeline heq

theorem buildTable_ok_eq (now : ℤ) (ps : List PipelineInfo) (rows : List Row)
    (h : buildTable now ps = .ok rows) :
    rows = (ps.filter keepPipeline).map (rowOf now) := by
  induction ps generalizing rows with
  | nil =>
    simp only [buildTable] at h
    injection h with h'
    subst h'
    rfl
  | cons p rest ih =>
    simp only [buildTable] at h
    cases hq : get_latest_execution p.execResp with
    | none =>
      simp only [hq] at h
      have hkeep : keepPipeline p = false := by simp [keepPipeline, hq]
      rw [List.filter_cons_of_neg (by simp [hkeep])]
      exact ih rows h
    | some ex =>
      simp only [hq] at h
      cases hb : buildRow now p.name (get_pipeline_branch p.defResp)
          (get_commit_message p.detailResp) ex with
      | error e => simp only [hb] at h; exact Except.noConfusion h
      | ok row =>
        simp only [hb] at h
        cases ht : buildTable now rest with
        | error e => simp only [ht] at h; exact Except.noConfusion h
        | ok rows0 =>
          simp only [ht] at h
          injection h with h'
          subst h'
          have hkeep : keepPipeline p = true := by simp [keepPipeline, hq]
          rw [List.filter_cons_of_pos hkeep, List.map_cons]
          have hrow : rowOf now p = row := by
            unfold rowOf
            simp only [hq, hb]
          rw [hrow, ih rows0 ht]

theorem monitorTable_ok {now : ℤ} {ps : List PipelineInfo} {rows : List Row}
    (h : monitorTable now ps = .ok rows) :
    ∃ rows0, buildTable now ps = .ok rows0 ∧ rows = sortRows rows0 := by
  unfold monitorTable at h
  cases ht : buildTable now ps with
  | error e => rw [ht] at h; exact absurd h (by simp [Except.map])
  | ok rows0 =>
    rw [ht] at h
    simp only [Except.map] at h
    exact ⟨rows0, rfl, (Except.ok.inj h).symm⟩

theorem branchOfStages_eq (stages : List Stage) :
    branchOfStages stages =
      ((stages.filter (fun st => toLowerChars st.name == "source".toList)).flatMap
        Stage.actions).findSome? branchOf := by
  induction stages with
  | nil => rfl
  | cons st rest ih =>
    by_cases h : (toLowerChars st.name == "source".toList) = true
    · rw [@List.filter_cons_of_pos _ (fun s0 => toLowerChars s0.name == "source".toList)
        st rest h, List.flatMap_cons, List.findSome?_append]
      simp only [branchOfStages, if_pos h]
      cases hf : st.actions.findSome? branchOf with
      | some b => simp [hf, Option.or]
      | none => simp [hf, ih, Option.or]
    · rw [@List.filter_cons_of_neg _ (fun s0 => toLowerChars s0.name == "source".toList)
        st rest h]
      simp only [branchOfStages, if_neg h]
      exact ih

theorem truthy_iff (o : Option String) : truthy o = true ↔ presentNonEmpty o := by
  cases o with
  | none => simp [truthy, presentNonEmpty]
  | some s => simp [truthy, presentNonEmpty]

/-- C1: a listed pipeline name P is kept by `list_all_pipelines` iff the
lowercased P contains the lowercased form of at least one configured filter
(OR semantics); with an empty filter list nothing is kept; and `__init__`
stores the filters lowercased. -/
theorem claim1_filter :
    (∀ (names F : List Chars) (P : Chars),
      P ∈ list_all_pipelines (.ok names) (F.map toLowerChars) ↔
        P ∈ names ∧ ∃ f ∈ F, containsSub (toLowerChars f) (toLowerChars P) = true)
    ∧ (∀ names : List Chars, list_all_pipelines (.ok names) [] = [])
    ∧ (∀ (env : Env) (F : List Chars) (m : Monitor),
        init env F = .ok m → m.name_filters = F.map toLowerChars) := by
  refine ⟨?_, ?_, ?_⟩
  · intro names F P
    simp only [list_all_pipelines, List.mem_filter, List.any_eq_true, List.mem_map]
    constructor
    · rintro ⟨hmem, f, ⟨g, hg, rfl⟩, hc⟩
      exact ⟨hmem, g, hg, hc⟩
    · rintro ⟨hmem, g, hg, hc⟩
      exact ⟨hmem, toLowerChars g, ⟨g, hg, rfl⟩, hc⟩
  · intro names
    simp [list_all_pipelines]
  · intro env F m hm
    simp only [init] at hm
    by_cases hc : (truthy env.accessKeyId && truthy env.secretAccessKey
        && truthy env.sessionToken) = true
    · rw [if_pos hc] at hm
      injection hm with hm'
      rw [← hm']
    · rw [if_neg hc] at hm
      exact Except.noConfusion hm

/-- C1 witness: a concrete successful construction stores the lowercased
filter list. -/
theorem claim1_witness :
    (⟨some "AKIA", some "SECRET", some "TOKEN", "eu-west-1", ["kulu".toList],
      ⟨some "AKIA", some "SECRET", some "TOKEN", "eu-west-1"⟩⟩ : Monitor).name_filters =
      ["KULU".toList].map toLowerChars :=
  claim1_filter.2.2 wEnvOk ["KULU".toList] _ (by decide)

/-- C2: with end at or after start, `format_duration` renders the elapsed
whole seconds t as "Ns" for t in 0..59, "Mm Ss" for t in 60..3599 and
"Hh Mm" for t at least 3600 (seconds dropped), and the duration value the
rendered components denote is non-decreasing in t. -/
theorem claim2_format_duration (now s e : ℤ) (h : s ≤ e) :
    (e - s ≤ 59 → format_duration now s (some e) = intToChars (e - s) ++ ['s'])
    ∧ (60 ≤ e - s → e - s ≤ 3599 →
        format_duration now s (some e) =
          intToChars ((e - s) / 60) ++ 'm' :: ' ' :: intToChars ((e - s) % 60) ++ ['s'])
    ∧ (3600 ≤ e - s →
        format_duration now s (some e) =
          intToChars ((e - s) / 3600) ++ 'h' :: ' ' :: intToChars (((e - s) % 3600) / 60) ++ ['m'])
    ∧ (∀ t1 t2 : ℤ, 0 ≤ t1 → t1 ≤ t2 → displayedSeconds t1 ≤ displayedSeconds t2) := by
  refine ⟨?_, ?_, ?_, ?_⟩
  · intro hle
    have h1 : ¬ (e - s) / 3600 > 0 := by omega
    have h2 : ¬ ((e - s) % 3600) / 60 > 0 := by omega
    have h3 : (e - s) % 60 = e - s := by omega
    simp only [format_duration, Option.getD_some]
    rw [if_neg h1, if_neg h2, h3]
  · intro h60 h3599
    have h1 : ¬ (e - s) / 3600 > 0 := by omega
    have h2 : ((e - s) % 3600) / 60 > 0 := by omega
    have h3 : (e - s) % 3600 = e - s := by omega
    simp only [format_duration, Option.getD_some]
    rw [if_neg h1, if_pos h2, h3]
  · intro h36
    have h1 : (e - s) / 3600 > 0 := by omega
    simp only [format_duration, Option.getD_some]
    rw [if_pos h1]
  · intro t1 t2 h1 h2
    simp only [displayedSeconds]
    split_ifs <;> omega

/-- C2 witness: 125 elapsed seconds render as "2m 5s". -/
theorem claim2_witness :
    (0 : ℤ) ≤ 125 ∧ format_duration 0 0 (some 125) = "2m 5s".toList := by
  refine ⟨by decide, ?_⟩
  have h := (claim2_format_duration 0 0 125 (by decide)).2.1 (by decide) (by decide)
  rw [h]
  decide

/-- C3: `get_commit_message` takes the first revision whose name does not
contain helm; with the marker present it extracts the embedded message (the
canonical summary yields exactly "fix bug"), otherwise it returns the raw
summary unchanged; and it returns "Unknown" on API error, absent execution,
or when no revision qualifies. -/
theorem claim3_commit_message :
    (∀ (execution : ExecDetail) (r : Revision),
        execution.artifactRevisions.find? nonHelm = some r →
        (containsSub commitMarker r.revisionSummary = true →
            get_commit_message (.ok (some execution)) = extractCommitMessage r.revisionSummary)
        ∧ (containsSub commitMarker r.revisionSummary = false →
            get_commit_message (.ok (some execution)) = r.revisionSummary))
    ∧ extractCommitMessage "\x7b\"CommitMessage\":\"fix bug\"\x7d".toList = "fix bug".toList
    ∧ (∀ err, get_commit_message (.error err) = unknownChars)
    ∧ get_commit_message (.ok none) = unknownChars
    ∧ (∀ execution : ExecDetail, execution.artifactRevisions.find? nonHelm = none →
        get_commit_message (.ok (some execution)) = unknownChars) := by
  refine ⟨?_, by decide, fun _ => rfl, rfl, ?_⟩
  · intro ex r hr
    constructor
    · intro _
      simp [get_commit_message, hr]
    · intro hm
      simp [get_commit_message, hr, extractCommitMessage, hm]
  · intro ex h
    simp [get_commit_message, h]

/-- C3 witness: on the concrete execution detail (helm revision first), the
extracted message is exactly "fix bug". -/
theorem claim3_witness :
    get_commit_message (.ok (some wDetail)) = "fix bug".toList := by
  have h := (claim3_commit_message.1 wDetail
      ⟨"SourceArtifact".toList, "\x7b\"CommitMessage\":\"fix bug\"\x7d".toList⟩
      (by decide)).1 (by decide)
  rw [h]
  exact claim3_commit_message.2.1

/-- C4: construction succeeds iff the three credentials are all present and
non-empty; otherwise it raises the ValueError before any client value
exists (the error result carries no client). -/
theorem claim4_init (env : Env) (fs : List Chars) :
    ((∃ m, init env fs = .ok m) ↔
      presentNonEmpty env.accessKeyId ∧ presentNonEmpty env.secretAccessKey
        ∧ presentNonEmpty env.sessionToken)
    ∧ (¬ (presentNonEmpty env.accessKeyId ∧ presentNonEmpty env.secretAccessKey
        ∧ presentNonEmpty env.sessionToken) →
        init env fs = .error "AWS credentials not found in environment variables") := by
  have hiff : (truthy env.accessKeyId && truthy env.secretAccessKey
      && truthy env.sessionToken) = true ↔
      (presentNonEmpty env.accessKeyId ∧ presentNonEmpty env.secretAccessKey
        ∧ presentNonEmpty env.sessionToken) := by
    simp [Bool.and_eq_true, truthy_iff, and_assoc]
  constructor
  · constructor
    · rintro ⟨m, hm⟩
      by_contra hcon
      rw [← hiff] at hcon
      simp only [init] at hm
      rw [if_neg hcon] at hm
      exact Except.noConfusion hm
    · intro hp
      refine ⟨⟨env.accessKeyId, env.secretAccessKey, env.sessionToken,
        env.region.getD "eu-west-1", fs.map toLowerChars,
        ⟨env.accessKeyId, env.secretAccessKey, env.sessionToken,
          env.region.getD "eu-west-1"⟩⟩, ?_⟩
      simp only [init]
      rw [if_pos (hiff.mpr hp)]
  · intro hn
    simp only [init]
    rw [if_neg (fun hc => hn (hiff.mp hc))]

/-- C4 witness: an empty session token makes construction fail with the
ValueError message. -/
theorem claim4_witness :
    init wEnvBad [] = .error "AWS credentials not found in environment variables" :=
  (claim4_init wEnvBad []).2 (by decide)

/-- C5: a matched pipeline whose latest execution is absent contributes no
row to the rendered table. -/
theorem claim5_skip (now : ℤ) (ps : List PipelineInfo) (p : PipelineInfo) (rows : List Row)
    (hp : p ∈ ps)
    (hnone : get_latest_execution p.execResp = none)
    (huniq : ∀ q ∈ ps, q.name = p.name → q = p)
    (hok : monitorTable now ps = .ok rows) :
    ∀ r ∈ rows, r.pipeline ≠ p.name := by
  obtain ⟨rows0, ht, hr⟩ := monitorTable_ok hok
  subst hr
  intro r hrmem hname
  have hr0 : r ∈ rows0 := ((List.perm_insertionSort rowLE rows0).mem_iff).mp hrmem
  rw [buildTable_ok_eq now ps rows0 ht] at hr0
  obtain ⟨q, hqmem, hqr⟩ := List.mem_map.mp hr0
  rw [← hqr, rowOf_pipeline now q] at hname
  have hq' : q = p := huniq q (List.mem_filter.mp hqmem).1 hname
  have hkeep : keepPipeline q = true := (List.mem_filter.mp hqmem).2
  rw [hq'] at hkeep
  simp [keepPipeline, hnone] at hkeep

/-- C5 witness: in the concrete table the (only) rendered row does not carry
the name of the pipeline whose execution-list call failed. -/
theorem claim5_witness :
    (wRows.getD 0 ⟨[], [], [], [], [], []⟩).pipeline ≠ wPipelineA.name := by
  have h := claim5_skip 0 wPipelines wPipelineA wRows (by decide) (by decide)
    (by decide) (by decide)
  exact h _ (by decide)

/-- C6: `get_pipeline_branch` returns the first non-empty `BranchName` among
the actions of the stages named source (case-insensitive), in order, and
"Unknown" when no such stage or action exists, when the pipeline object is
absent, or on API error. -/
theorem claim6_branch :
    (∀ err, get_pipeline_branch (.error err) = unknownChars)
    ∧ (∀ (p : Pipeline) (b : Chars),
        (sourceActions p).findSome? branchOf = some b →
        get_pipeline_branch (.ok (some p)) = b)
    ∧ (∀ p : Pipeline, (sourceActions p).findSome? branchOf = none →
        get_pipeline_branch (.ok (some p)) = unknownChars)
    ∧ get_pipeline_branch (.ok none) = unknownChars := by
  refine ⟨fun _ => rfl, ?_, ?_, rfl⟩
  · intro p b hb
    simp only [sourceActions] at hb
    simp only [get_pipeline_branch, Option.getD_some, branchOfStages_eq, hb]
  · intro p hb
    simp only [sourceActions] at hb
    simp only [get_pipeline_branch, Option.getD_some, branchOfStages_eq, hb]

/-- C6 witness: the concrete source stage yields branch "main". -/
theorem claim6_witness : get_pipeline_branch (.ok (some wSource)) = "main".toList :=
  claim6_branch.2.1 wSource "main".toList (by decide)

/-- C7: messages longer than 50 characters are truncated to their first 50
characters plus "..." (displayed length exactly 53); shorter messages are
unchanged. -/
theorem claim7_truncate :
    ∀ m : Chars,
      (m.length > 50 →
        truncateMessage m = m.take 50 ++ "...".toList ∧ (truncateMessage m).length = 53)
      ∧ (m.length ≤ 50 → truncateMessage m = m) := by
  intro m
  constructor
  · intro h
    have ht : truncateMessage m = m.take 50 ++ "...".toList := by
      simp only [truncateMessage]
      rw [if_pos h]
    refine ⟨ht, ?_⟩
    rw [ht, List.length_append, List.length_take]
    have h3 : ("...".toList).length = 3 := rfl
    rw [h3]
    omega
  · intro h
    simp only [truncateMessage]
    rw [if_neg (by omega)]

/-- C7 witness: a 60-character message is truncated to displayed length
53. -/
theorem claim7_witness :
    (List.replicate 60 'a').length > 50
    ∧ truncateMessage (List.replicate 60 'a') = (List.replicate 60 'a').take 50 ++ "...".toList
    ∧ (truncateMessage (List.replicate 60 'a')).length = 53 :=
  ⟨by decide, ((claim7_truncate (List.replicate 60 'a')).1 (by decide)).1,
    ((claim7_truncate (List.replicate 60 'a')).1 (by decide)).2⟩

/-- C8: the rendered table is sorted ascending by pipeline name, and (the
pipeline names being pairwise distinct) it is the same for every
permutation of the order in which the pipelines were fetched. -/
theorem claim8_sort :
    (∀ (now : ℤ) (ps : List PipelineInfo) (rows : List Row),
        monitorTable now ps = .ok rows → List.Sorted rowLE rows)
    ∧ (∀ (now : ℤ) (ps1 ps2 : List PipelineInfo) (rows1 rows2 : List Row),
        ps1.Perm ps2 → (ps1.map PipelineInfo.name).Nodup →
        monitorTable now ps1 = .ok rows1 → monitorTable now ps2 = .ok rows2 →
        rows1 = rows2) := by
  constructor
  · intro now ps rows h
    obtain ⟨rows0, _, hr⟩ := monitorTable_ok h
    rw [hr]
    exact List.sorted_insertionSort rowLE rows0
  · intro now ps1 ps2 rows1 rows2 hperm hnodup h1 h2
    obtain ⟨r10, ht1, hr1⟩ := monitorTable_ok h1
    obtain ⟨r20, ht2, hr2⟩ := monitorTable_ok h2
    have he1 := buildTable_ok_eq now ps1 r10 ht1
    have he2 := buildTable_ok_eq now ps2 r20 ht2
    have hp0 : r10.Perm r20 := by
      rw [he1, he2]
      exact (hperm.filter keepPipeline).map (rowOf now)
    have hpr : rows1.Perm rows2 := by
      rw [hr1, hr2]
      exact ((List.perm_insertionSort rowLE r10).trans hp0).trans
        (List.perm_insertionSort rowLE r20).symm
    have hnames1 : (rows1.map Row.pipeline).Nodup := by
      rw [hr1]
      simp only [sortRows]
      rw [((List.perm_insertionSort rowLE r10).map Row.pipeline).nodup_iff]
      rw [he1, List.map_map]
      have hmc : List.map (Row.pipeline ∘ rowOf now) (ps1.filter keepPipeline) =
          List.map PipelineInfo.name (ps1.filter keepPipeline) :=
        List.map_congr_left (fun q _ => rowOf_pipeline now q)
      rw [hmc]
      exact List.Nodup.sublist ((List.filter_sublist ps1).map PipelineInfo.name) hnodup
    have hnames2 : (rows2.map Row.pipeline).Nodup :=
      ((hpr.map Row.pipeline).nodup_iff).mp hnames1
    have hs1 : List.Pairwise rowLE rows1 := by
      rw [hr1]
      exact List.sorted_insertionSort rowLE r10
    have hs2 : List.Pairwise rowLE rows2 := by
      rw [hr2]
      exact List.sorted_insertionSort rowLE r20
    have hne1 : List.Pairwise (fun a b : Row => a.pipeline ≠ b.pipeline) rows1 :=
      List.pairwise_map.mp hnames1
    have hne2 : List.Pairwise (fun a b : Row => a.pipeline ≠ b.pipeline) rows2 :=
      List.pairwise_map.mp hnames2
    have hst1 : List.Sorted rowLT rows1 :=
      (hs1.and hne1).imp (fun hab => lt_of_le_of_ne hab.1 hab.2)
    have hst2 : List.Sorted rowLT rows2 :=
      (hs2.and hne2).imp (fun hab => lt_of_le_of_ne hab.1 hab.2)
    exact List.eq_of_perm_of_sorted hpr hst1 hst2

/-- C8 witness: the concrete table is sorted by pipeline name. -/
theorem claim8_witness : List.Sorted rowLE wRows :=
  claim8_sort.1 0 wPipelines wRows (by decide)

/-- C9 counterexample: an execution summary lacking `lastUpdateTime` whose
present `startTime` is not a `datetime` makes the loop body raise inside
`format_date`, so no row is rendered and no substituted Last Run value is
shown — against the claim that every summary lacking a timestamp field
still yields a rendered row showing the substituted current time. -/
theorem claim9_counterexample :
    badSummary.lastUpdateTime = none ∧
    buildRow 0 "p1".toList "main".toList "msg".toList badSummary = .error "AttributeError" :=
  ⟨rfl, rfl⟩

/-- C9 (amended): for a summary lacking `startTime` and/or `lastUpdateTime`
the current time is substituted for each missing field; whenever the start
value used is a `datetime` — in particular whenever `startTime` itself is
missing — the row is rendered, its Last Run column shows the start value
formatted (the substituted current time exactly when `startTime` was
missing), and its Duration column is `format_duration` of the values after
substitution when both are `datetime`s and "Unknown" when the present
`lastUpdateTime` is not a `datetime`; a present non-`datetime` `startTime`
instead makes date formatting raise, so no row is rendered. -/
theorem claim9_amended (now : ℤ) (name branch msg : Chars) (ex : ExecSummary)
    (hmiss : ex.startTime = none ∨ ex.lastUpdateTime = none) :
    (ex.startTime = none → ex.lastUpdateTime = none →
      buildRow now name branch msg ex =
        .ok ⟨name, branch, ex.status.getD "UNKNOWN".toList, format_date now,
          format_duration now now (some now), truncateMessage msg⟩)
    ∧ (∀ t, ex.startTime = none → ex.lastUpdateTime = some (.dt t) →
      buildRow now name branch msg ex =
        .ok ⟨name, branch, ex.status.getD "UNKNOWN".toList, format_date now,
          format_duration now now (some t), truncateMessage msg⟩)
    ∧ (ex.startTime = none → ex.lastUpdateTime = some .nonDt →
      buildRow now name branch msg ex =
        .ok ⟨name, branch, ex.status.getD "UNKNOWN".toList, format_date now,
          unknownChars, truncateMessage msg⟩)
    ∧ (∀ t, ex.startTime = some (.dt t) → ex.lastUpdateTime = none →
      buildRow now name branch msg ex =
        .ok ⟨name, branch, ex.status.getD "UNKNOWN".toList, format_date t,
          format_duration now t (some now), truncateMessage msg⟩)
    ∧ (ex.startTime = some .nonDt →
      buildRow now name branch msg ex = .error "AttributeError") := by
  refine ⟨?_, ?_, ?_, ?_, ?_⟩ <;> intros <;> simp_all [buildRow]

/-- C9 witness: a summary lacking `startTime` renders a row whose Last Run
is the substituted current time and whose duration is computed from the
substituted start. -/
theorem claim9_witness :
    buildRow 0 "p2".toList "dev".toList "hello".toList missingStartSummary =
      .ok ⟨"p2".toList, "dev".toList, "UNKNOWN".toList, format_date 0,
        format_duration 0 0 (some 100), truncateMessage "hello".toList⟩ := by
  have h := (claim9_amended 0 "p2".toList "dev".toList "hello".toList missingStartSummary
    (Or.inl rfl)).2.1 100 rfl rfl
  simpa using h

/-- C10: `format_duration` is total on all timestamp pairs; with end
strictly before start the hours component is at most -1, the hours branch
is never taken, and the output comes from the elapsed time modulo 3600; in
particular -1 elapsed second renders as "59m 59s". -/
theorem claim10_negative (now s e : ℤ) (h : e < s) :
    (e - s) / 3600 ≤ -1
    ∧ format_duration now s (some e) =
        (if ((e - s) % 3600) / 60 > 0 then
          intToChars (((e - s) % 3600) / 60) ++ 'm' :: ' ' :: intToChars ((e - s) % 60) ++ ['s']
        else intToChars ((e - s) % 60) ++ ['s'])
    ∧ format_duration 0 1 (some 0) = "59m 59s".toList := by
  refine ⟨by omega, ?_, by decide⟩
  have h1 : ¬ (e - s) / 3600 > 0 := by omega
  simp only [format_duration, Option.getD_some]
  rw [if_neg h1]

/-- C10 witness: one second of negative elapsed time renders as
"59m 59s". -/
theorem claim10_witness :
    ((0 : ℤ) - 1) / 3600 ≤ -1
    ∧ format_duration 0 1 (some 0) =
        (if (((0 : ℤ) - 1) % 3600) / 60 > 0 then
          intToChars ((((0 : ℤ) - 1) % 3600) / 60) ++ 'm' :: ' '
            :: intToChars (((0 : ℤ) - 1) % 60) ++ ['s']
        else intToChars (((0 : ℤ) - 1) % 60) ++ ['s'])
    ∧ format_duration 0 1 (some 0) = "59m 59s".toList :=
  claim10_negative 0 1 0 (by decide)

end AWSPipelineMonitor
